import Mathlib

set_option maxHeartbeats 1000000

namespace StudyPulse

/-- JSON-like values as produced by `json.loads` on provider output in
`src/ai_service.py`.  The shapes the pipeline inspects are strings, integers,
booleans, null, arrays and objects. -/
inductive JsonVal where
  | str (s : String)
  | int (n : Int)
  | bool (b : Bool)
  | null
  | arr (xs : List JsonVal)
  | obj (fs : List (String × JsonVal))

mutual

/-- Structural equality of JSON values (Python `==` on parsed JSON). -/
def JsonVal.beq : JsonVal → JsonVal → Bool
  | .str a, .str b => a == b
  | .int a, .int b => a == b
  | .bool a, .bool b => a == b
  | .null, .null => true
  | .arr xs, .arr ys => JsonVal.beqList xs ys
  | .obj fs, .obj gs => JsonVal.beqFields fs gs
  | _, _ => false

def JsonVal.beqList : List JsonVal → List JsonVal → Bool
  | [], [] => true
  | x :: xs, y :: ys => JsonVal.beq x y && JsonVal.beqList xs ys
  | _, _ => false

def JsonVal.beqFields : List (String × JsonVal) → List (String × JsonVal) → Bool
  | [], [] => true
  | (k, v) :: fs, (k2, v2) :: gs => k == k2 && JsonVal.beq v v2 && JsonVal.beqFields fs gs
  | _, _ => false

end

mutual

theorem JsonVal.beq_iff : ∀ a b : JsonVal, (JsonVal.beq a b = true) ↔ a = b
  | .str _, b => by cases b <;> simp [JsonVal.beq]
  | .int _, b => by cases b <;> simp [JsonVal.beq]
  | .bool _, b => by cases b <;> simp [JsonVal.beq]
  | .null, b => by cases b <;> simp [JsonVal.beq]
  | .arr xs, b => by
      cases b with
      | arr ys => simpa [JsonVal.beq] using JsonVal.beqList_iff xs ys
      | str s => simp [JsonVal.beq]
      | int n => simp [JsonVal.beq]
      | bool b => simp [JsonVal.beq]
      | null => simp [JsonVal.beq]
      | obj gs => simp [JsonVal.beq]
  | .obj fs, b => by
      cases b with
      | obj gs => simpa [JsonVal.beq] using JsonVal.beqFields_iff fs gs
      | str s => simp [JsonVal.beq]
      | int n => simp [JsonVal.beq]
      | bool b => simp [JsonVal.beq]
      | null => simp [JsonVal.beq]
      | arr ys => simp [JsonVal.beq]

theorem JsonVal.beqList_iff : ∀ xs ys : List JsonVal, (JsonVal.beqList xs ys = true) ↔ xs = ys
  | [], ys => by cases ys <;> simp [JsonVal.beqList]
  | _ :: _, [] => by simp [JsonVal.beqList]
  | x :: xs, y :: ys => by
      simp [JsonVal.beqList, Bool.and_eq_true, JsonVal.beq_iff x y,
        JsonVal.beqList_iff xs ys]

theorem JsonVal.beqFields_iff :
    ∀ fs gs : List (String × JsonVal), (JsonVal.beqFields fs gs = true) ↔ fs = gs
  | [], gs => by cases gs <;> simp [JsonVal.beqFields]
  | _ :: _, [] => by simp [JsonVal.beqFields]
  | (k, v) :: fs, (k2, v2) :: gs => by
      simp [JsonVal.beqFields, Bool.and_eq_true, JsonVal.beq_iff v v2,
        JsonVal.beqFields_iff fs gs, and_assoc, Prod.ext_iff]

end

instance : DecidableEq JsonVal :=
  fun a b => decidable_of_iff _ (JsonVal.beq_iff a b)

/-- A parsed top-level JSON object (a Python `dict`): association list of
fields with distinct keys. -/
abbrev Content := List (String × JsonVal)

/-- Python `dict.get(key)`: the value stored under `key`, or `None`. -/
def dget (c : Content) (k : String) : Option JsonVal :=
  (c.find? (fun p => p.1 == k)).map (fun p => p.2)

/- ### Cache model (`src/ai_service.py`, lines 242-302)

`load_cache`/`save_cache` move a JSON object between disk and memory; one
sequential run of the pipeline is modelled by threading the store through the
operations.  The store maps a content type to the ordered list of entries
under that key of `ai_content_cache.json`. -/

abbrev CacheStore := String → List Content

def emptyCache : CacheStore := fun _ => []

/-- The duplicate scan of `add_to_cache` (lines 271-284): an entry is a
duplicate when the kind-specific identity field compares equal under
Python `==` (both sides read with `dict.get`, so two missing fields also
compare equal). -/
def isDuplicate (content_type : String) (items : List Content) (content : Content) : Bool :=
  items.any (fun item =>
    if content_type == "question" then dget item "question" == dget content "question"
    else if content_type == "fact" then dget item "fact" == dget content "fact"
    else if content_type == "formula" then dget item "title" == dget content "title"
    else if content_type == "language" then dget item "word" == dget content "word"
    else false)

/-- `add_to_cache` (lines 264-292): append `content` to its type's list
unless the duplicate scan fires; afterwards keep only the last 100 entries
(`cache[content_type][-100:]`) and persist. -/
def add_to_cache (content_type : String) (content : Content) (cache : CacheStore) : CacheStore :=
  let items := cache content_type
  if isDuplicate content_type items content then cache
  else
    let items2 := items ++ [content]
    let items3 := if items2.length > 100 then items2.drop (items2.length - 100) else items2
    fun k => if k = content_type then items3 else cache k

/-- `get_from_cache` (lines 294-302): `random.choice` over the type's list
(`choice` resolves the randomness), `None` when the list is empty. -/
def get_from_cache (cache : CacheStore) (choice : Nat) (content_type : String) : Option Content :=
  let items := cache content_type
  items[choice % items.length]?

/-- The four content types `get_ai_content` builds a prompt for
(lines 314-321); any other type returns `None` early (lines 322-324). -/
def knownType (content_type : String) : Bool :=
  content_type == "question" || content_type == "fact" ||
  content_type == "formula" || content_type == "language"

/-- The kind-specific identity field compared by the duplicate scan. -/
def naturalKey (content_type : String) : String :=
  if content_type == "question" then "question"
  else if content_type == "fact" then "fact"
  else if content_type == "formula" then "title"
  else "word"

/- ### `repair_json` (lines 122-134) and the HuggingFace slice (lines 226-230) -/

/-- Python's `\s` character class, restricted to ASCII (every input in play
is ASCII). -/
def isPySpace (c : Char) : Bool :=
  c == ' ' || c == '\t' || c == '\n' || c == '\r' || c == '\u000b' || c == '\u000c'

/-- Fuel-indexed scanner for `subLit`.  Every recursive step removes at
least one character from the list, so with the list's length as fuel the
`0, l` row (returning the rest unscanned) is never reached. -/
def subLitAux (lit : List Char) : Nat → List Char → List Char
  | _, [] => []
  | 0, l => l
  | fuel + 1, x :: xs =>
    if lit.isPrefixOf (x :: xs) && !lit.isEmpty then
      subLitAux lit fuel (((x :: xs).drop lit.length).dropWhile isPySpace)
    else
      x :: subLitAux lit fuel xs

/-- One pass of `re.sub(lit + r'\s*', '', text)` for a non-empty literal
`lit`: delete each leftmost occurrence of `lit` together with the greedy
whitespace run after it, resuming the scan past the deleted region. -/
def subLit (lit : List Char) (l : List Char) : List Char := subLitAux lit l.length l

/-- Python `str.strip()` with no argument (ASCII whitespace). -/
def pyStrip (l : List Char) : List Char :=
  ((l.dropWhile isPySpace).reverse.dropWhile isPySpace).reverse

def jsonFenceLit : List Char := "```json".toList

def fenceLit : List Char := "```".toList

/-- `repair_json` (lines 122-134), on the character list of the text:
remove markdown fences, strip, and close a truncated object. -/
def repair_jsonL (text : List Char) : List Char :=
  let t1 := subLit jsonFenceLit text
  let t2 := subLit fenceLit t1
  let t3 := pyStrip t2
  if t3.head? == some '{' && !(t3.getLast? == some '}') then t3 ++ ['}'] else t3

/-- `repair_json` on `String`. -/
def repair_json (text : String) : String := ⟨repair_jsonL text.toList⟩

/-- Python `str.find(ch)`: first index or `-1`. -/
def pyFind (ch : Char) (l : List Char) : Int :=
  match l.findIdx? (fun x => x == ch) with
  | some i => (i : Int)
  | none => -1

/-- Python `str.rfind(ch)`: last index or `-1`. -/
def pyRFind (ch : Char) (l : List Char) : Int :=
  match l.reverse.findIdx? (fun x => x == ch) with
  | some i => (l.length : Int) - 1 - (i : Int)
  | none => -1

/-- The HuggingFace-branch extraction (lines 226-230): slice from the first
`{` to the last `}` inclusive when a `{` is present (`end_idx = rfind + 1`
is never `-1`, so the guard only tests for `{`); the indices in play are
non-negative, so the Python slice is drop-then-take. -/
def hfExtractL (content : List Char) : List Char :=
  let start_idx := pyFind '{' content
  let end_idx := pyRFind '}' content + 1
  if start_idx ≠ -1 ∧ end_idx ≠ -1 then
    (content.drop start_idx.toNat).take (end_idx.toNat - start_idx.toNat)
  else content

/-- The HuggingFace extraction on `String`. -/
def hfExtract (content : String) : String := ⟨hfExtractL content.toList⟩

/- ### `_make_api_request` (lines 136-239) and `get_ai_content` (lines 304-342)

Network interaction is an oracle: for Gemini, each loop iteration's HTTP
response (status plus, for a 200 body, the outcome of
`json.loads(repair_json(raw_text))` on the extracted text — `none` when
extraction or parsing raises, which lands in the `except` branch); for each
backup provider, a single combined call-and-parse outcome, since every
failure of a backup falls through to the next tier identically. -/

/-- `MAX_RETRIES = 3` (line 25). -/
def MAX_RETRIES : Nat := 3

/-- `RETRY_DELAY = 2` (line 26); the sleep call itself uses the literal `2`. -/
def RETRY_DELAY : Nat := 2

/-- Outcome of one Gemini attempt: an HTTP response or a raised exception. -/
inductive GeminiResp where
  | resp (status : Nat) (parsed : Option Content)
  | exn

/-- Observable effects of a `_make_api_request` run: provider network calls
and backoff sleeps (in seconds). -/
inductive Event where
  | geminiAttempt (attempt : Nat)
  | sleep (seconds : Nat)
  | groqCall
  | openrouterCall
  | hfCall
deriving DecidableEq, Repr

/-- The Gemini retry loop (lines 148-164).  `for attempt in range(MAX_RETRIES)`
is recursion over the list of remaining attempt indices; `o` gives each
attempt's outcome.  A 200 with a parsed body returns it; a 200 whose
extraction/parse raises falls into `except` and just loops; 429 breaks out of
the loop; any other status sleeps 2 seconds unless this was the last attempt;
an exception loops without sleeping. -/
def geminiTry (o : Nat → GeminiResp) : List Nat → Option Content × List Event
  | [] => (none, [])
  | attempt :: rest =>
    match o attempt with
    | .exn =>
      let r := geminiTry o rest
      (r.1, Event.geminiAttempt attempt :: r.2)
    | .resp status parsed =>
      if status == 200 then
        match parsed with
        | some c => (some c, [Event.geminiAttempt attempt])
        | none =>
          let r := geminiTry o rest
          (r.1, Event.geminiAttempt attempt :: r.2)
      else if status == 429 then (none, [Event.geminiAttempt attempt])
      else
        let delay := if attempt < MAX_RETRIES - 1 then [Event.sleep 2] else []
        let r := geminiTry o rest
        (r.1, Event.geminiAttempt attempt :: (delay ++ r.2))

/-- The whole Gemini tier: the loop over `range(MAX_RETRIES)`. -/
def geminiRun (o : Nat → GeminiResp) : Option Content × List Event :=
  geminiTry o (List.range MAX_RETRIES)

/-- Which credentials are configured (truthiness of the environment
variables read in `src/ai_service.py`); `groqImported` is `Groq is not None`
(lines 19-22). -/
structure Env where
  geminiKey : Bool
  groqKey : Bool
  groqImported : Bool
  openrouterKey : Bool
  hfKey : Bool
deriving DecidableEq, Repr

/-- Provider behaviour for one `_make_api_request` run.  For each backup
tier, `some c` means the call, extraction and JSON parse all succeeded with
result `c`; `none` means any failure (non-200 status, exception, or parse
error) — in the source every such failure falls through to the next tier. -/
structure Oracle where
  gemini : Nat → GeminiResp
  groq : Option Content
  openrouter : Option Content
  hf : Option Content

/-- `_make_api_request` (lines 136-239): Gemini with retries, then Groq
(needs both the key and the imported module), then OpenRouter, then
HuggingFace; each backup is attempted at most once, and a tier whose
credential is absent is skipped without a network call. -/
def makeApiRequest (env : Env) (o : Oracle) : Option Content × List Event :=
  let g := if env.geminiKey then geminiRun o.gemini else (none, [])
  match g.1 with
  | some c => (some c, g.2)
  | none =>
    let q : Option Content × List Event :=
      if env.groqKey && env.groqImported then (o.groq, [Event.groqCall]) else (none, [])
    match q.1 with
    | some c => (some c, g.2 ++ q.2)
    | none =>
      let r : Option Content × List Event :=
        if env.openrouterKey then (o.openrouter, [Event.openrouterCall]) else (none, [])
      match r.1 with
      | some c => (some c, g.2 ++ q.2 ++ r.2)
      | none =>
        let hf : Option Content × List Event :=
          if env.hfKey then (o.hf, [Event.hfCall]) else (none, [])
        (hf.1, g.2 ++ q.2 ++ r.2 ++ hf.2)

/-- The tail of `get_ai_content` (lines 334-342): sample the cache and
return the entry when it is truthy (a non-empty dict), else `None`. -/
def cacheFallback (cache : CacheStore) (choice : Nat) (content_type : String) : Option Content :=
  match get_from_cache cache choice content_type with
  | some c => if c.isEmpty then none else some c
  | none => none

/-- `get_ai_content` (lines 304-342).  The credential gate (lines 309-311)
tests only the Gemini and Groq keys; an unknown content type returns `None`
before any network call; otherwise `_make_api_request` runs, a truthy result
is cached and returned, and anything else falls back to the cache.  The
returned triple is (result, cache store after the call, events).  Prompt
construction (lines 313-321) only selects the prompt text, which no claim
inspects, so it is folded into the `knownType` dispatch. -/
def get_ai_content (env : Env) (o : Oracle) (cache : CacheStore) (choice : Nat)
    (content_type : String) : Option Content × CacheStore × List Event :=
  if !env.geminiKey && !env.groqKey then
    (get_from_cache cache choice content_type, cache, [])
  else if !(knownType content_type) then (none, cache, [])
  else
    let res := makeApiRequest env o
    match res.1 with
    | some c =>
      if !c.isEmpty then (some c, add_to_cache content_type c cache, res.2)
      else (cacheFallback cache choice content_type, cache, res.2)
    | none => (cacheFallback cache choice content_type, cache, res.2)

/-- Modelled from the spec: the required-field validation described in §3
("every `GeneratedContent` must satisfy its kind's required-field set") and
§4.4 ("validate that every required field for `kind` is present and of the
expected primitive shape (e.g., `options` is exactly 4 strings,
`correct_option_id` is an integer 0-3)").  No such validation exists in
`src/ai_service.py`; this definition follows the spec's words so that the
claims about it can be compared with what the code does. -/
def specValidForKind (content_type : String) (c : Content) : Bool :=
  let isStrField := fun (k : String) =>
    match dget c k with
    | some (.str _) => true
    | _ => false
  if content_type == "question" then
    isStrField "question" &&
    (match dget c "options" with
     | some (.arr xs) =>
       xs.length == 4 &&
       xs.all (fun x => match x with | .str _ => true | _ => false)
     | _ => false) &&
    (match dget c "correct_option_id" with
     | some (.int i) => decide (0 ≤ i ∧ i ≤ 3)
     | _ => false) &&
    isStrField "explanation" && isStrField "topic" && isStrField "difficulty" &&
    isStrField "source" && isStrField "visual_hint"
  else if content_type == "fact" then
    isStrField "fact" && isStrField "topic" && isStrField "source" &&
    isStrField "visual_hint"
  else if content_type == "formula" then
    isStrField "title" && isStrField "formula" && isStrField "explanation" &&
    isStrField "topic" && isStrField "source" && isStrField "visual_hint"
  else if content_type == "language" then
    isStrField "language" && isStrField "word" && isStrField "phonetic" &&
    isStrField "meaning" && isStrField "usage" && isStrField "tip"
  else false

/- ### Helper lemmas -/

/-- A successful cache sample is one of the stored entries of its kind. -/
theorem get_from_cache_mem {cache : CacheStore} {choice : Nat} {ct : String}
    {c : Content} (h : get_from_cache cache choice ct = some c) : c ∈ cache ct := by
  unfold get_from_cache at h
  exact List.getElem?_mem h

/-- Whether an event is a Gemini network call. -/
def isGeminiAttemptEvt : Event → Bool
  | .geminiAttempt _ => true
  | _ => false

/-- Whether an event is a backoff sleep. -/
def isSleepEvt : Event → Bool
  | .sleep _ => true
  | _ => false

/-- Count of Gemini network calls recorded in a trace. -/
def geminiAttemptsIn (tr : List Event) : Nat :=
  (tr.filter isGeminiAttemptEvt).length

/-- The sleep events recorded in a trace. -/
def sleepsIn (tr : List Event) : List Event :=
  tr.filter isSleepEvt

theorem geminiTry_trace_shape (o : Nat → GeminiResp) :
    ∀ l : List Nat, geminiAttemptsIn (geminiTry o l).2 ≤ l.length ∧
      (sleepsIn (geminiTry o l).2).all (fun e => e == Event.sleep 2) = true := by
  intro l
  induction l with
  | nil => simp [geminiTry, geminiAttemptsIn, sleepsIn]
  | cons a rest ih =>
    obtain ⟨ih1, ih2⟩ := ih
    cases h : o a with
    | exn =>
      simp only [geminiTry, h, geminiAttemptsIn, sleepsIn, List.filter_cons,
        isGeminiAttemptEvt, isSleepEvt, if_true, if_false, List.length_cons,
        cond_true, cond_false] at *
      exact ⟨by omega, ih2⟩
    | resp status parsed =>
      by_cases h200 : status == 200
      · cases parsed with
        | some c =>
          simp [geminiTry, h, h200, geminiAttemptsIn, sleepsIn,
            isGeminiAttemptEvt, isSleepEvt]
        | none =>
          simp only [geminiTry, h, h200, if_true, geminiAttemptsIn, sleepsIn,
            List.filter_cons, isGeminiAttemptEvt, isSleepEvt, List.length_cons,
            cond_true, cond_false] at *
          exact ⟨by omega, ih2⟩
      · by_cases h429 : status == 429
        · simp [geminiTry, h, h200, h429, geminiAttemptsIn, sleepsIn,
            isGeminiAttemptEvt, isSleepEvt]
        · by_cases hlast : a < MAX_RETRIES - 1
          · simp only [geminiTry, h, h200, h429, hlast, if_true, if_false,
              Bool.false_eq_true, geminiAttemptsIn, sleepsIn, List.filter_cons,
              List.filter_append, isGeminiAttemptEvt, isSleepEvt,
              List.length_cons, List.length_append, List.filter_nil,
              List.all_cons, List.nil_append, List.all_append,
              cond_true, cond_false] at *
            refine ⟨by omega, by simp [ih2]⟩
          · simp only [geminiTry, h, h200, h429, hlast, if_true, if_false,
              Bool.false_eq_true, geminiAttemptsIn, sleepsIn, List.filter_cons,
              List.filter_append, isGeminiAttemptEvt, isSleepEvt,
              List.length_cons, List.length_append, List.filter_nil,
              List.all_cons, List.nil_append, List.all_append,
              cond_true, cond_false] at *
            exact ⟨by omega, ih2⟩

/-- For the four dispatched types, the duplicate scan is exactly an
any-scan on the kind's natural-key field. -/
theorem isDuplicate_natural_key {ct : String} (hct : knownType ct = true)
    (items : List Content) (c : Content) :
    isDuplicate ct items c =
      items.any (fun item => dget item (naturalKey ct) == dget c (naturalKey ct)) := by
  simp only [knownType, Bool.or_eq_true, beq_iff_eq] at hct
  rcases hct with ((h | h) | h) | h <;> subst h <;> simp [isDuplicate, naturalKey]

/-- The entry just appended survives the eviction step. -/
theorem mem_drop_append_last {α : Type} (l : List α) (c : α) (n : Nat)
    (hn : n ≤ l.length) : c ∈ (l ++ [c]).drop n := by
  rw [List.drop_append_of_le_length hn]
  simp

/-- The freshly added entry is present in its kind's list after an add. -/
theorem mem_add_to_cache_self {ct : String} {c : Content} {cache : CacheStore}
    (hdup : isDuplicate ct (cache ct) c = false) :
    c ∈ (add_to_cache ct c cache) ct := by
  unfold add_to_cache
  simp only [hdup, Bool.false_eq_true, if_false]
  rw [if_pos trivial]
  split
  · rename_i hlong
    apply mem_drop_append_last
    simp only [List.length_append, List.length_singleton] at hlong ⊢
    omega
  · simp

/-- One add keeps every kind's list within the 100-entry cap. -/
theorem add_to_cache_bound {cache : CacheStore} (hb : ∀ k, (cache k).length ≤ 100)
    (ct : String) (c : Content) : ∀ k, ((add_to_cache ct c cache) k).length ≤ 100 := by
  intro k
  unfold add_to_cache
  split
  · exact hb k
  · by_cases hk : k = ct
    · subst hk
      simp only [if_pos rfl]
      split
      · rename_i hlong
        rw [List.length_drop]
        omega
      · rename_i hshort
        simp only [List.length_append, List.length_singleton] at *
        omega
    · simp only [if_neg hk]
      exact hb k

/-- Any sequence of adds, applied in order. -/
def applyAdds (ops : List (String × Content)) (cache : CacheStore) : CacheStore :=
  ops.foldl (fun st op => add_to_cache op.1 op.2 st) cache

theorem applyAdds_bound (ops : List (String × Content)) :
    ∀ cache : CacheStore, (∀ k, (cache k).length ≤ 100) →
      ∀ k, ((applyAdds ops cache) k).length ≤ 100 := by
  induction ops with
  | nil => intro cache hb; simpa [applyAdds] using hb
  | cons op rest ih =>
    intro cache hb
    simpa [applyAdds] using ih (add_to_cache op.1 op.2 cache) (add_to_cache_bound hb op.1 op.2)

/-- A duplicate add leaves the whole store untouched (and unpersisted). -/
theorem add_to_cache_of_dup {ct : String} {c : Content} {cache : CacheStore}
    (h : isDuplicate ct (cache ct) c = true) : add_to_cache ct c cache = cache := by
  unfold add_to_cache
  simp [h]

/- ### Claims -/

/-- C8: the repair step maps the malformed raw text consisting of a
```` ```json ```` fence opener followed by the unterminated object
`{"fact": "text"` to the valid JSON text `{"fact": "text"}`: the fence
marker (with its trailing whitespace) is removed, the text is stripped, and
since it starts with `{` but does not end with `}`, one closing brace is
appended. -/
theorem repair_json_fenced_truncated :
    repair_json "```json\n\x7b\"fact\": \"text\"" = "\x7b\"fact\": \"text\"\x7d" := by
  decide

/-- C2 counterexample: when every Gemini attempt fails with HTTP 500, the
loop makes its 3 attempts and sleeps 2 seconds after the first failure and
again 2 seconds after the second — not the 4 seconds that the claimed
linear-backoff formula (base_delay 2 s × attempt number) prescribes for the
second delay. -/
theorem gemini_backoff_constant_not_linear :
    geminiRun (fun _ => .resp 500 none) =
      (none, [Event.geminiAttempt 0, Event.sleep 2, Event.geminiAttempt 1,
              Event.sleep 2, Event.geminiAttempt 2]) ∧
    sleepsIn (geminiRun (fun _ => .resp 500 none)).2 ≠
      [Event.sleep 2, Event.sleep 4] := by
  constructor
  · decide
  · decide

/-- C2 amended: against the primary provider at most `MAX_RETRIES = 3`
attempts are made, and every backoff delay taken between attempts is the
constant `2` seconds (the source sleeps `2` unconditionally; there is no
delay after a 429, after a connection error, or after the final attempt). -/
theorem gemini_retry_bounded_constant_delay (o : Nat → GeminiResp) :
    geminiAttemptsIn (geminiRun o).2 ≤ 3 ∧
    (sleepsIn (geminiRun o).2).all (fun e => e == Event.sleep 2) = true := by
  have h := geminiTry_trace_shape o (List.range MAX_RETRIES)
  simpa [geminiRun, MAX_RETRIES] using h

/-- C6: when no provider credential at all is configured (regardless of
whether the Groq import succeeded), `get_ai_content` performs no network
call — the event trace is empty — leaves the cache store untouched, and
returns exactly the cache sample: an entry stored for the requested kind,
or `none` (the unavailability signal). -/
theorem no_credentials_no_network (gi : Bool) (o : Oracle) (cache : CacheStore)
    (choice : Nat) (ct : String) :
    get_ai_content ⟨false, false, gi, false, false⟩ o cache choice ct =
      (get_from_cache cache choice ct, cache, []) ∧
    ∀ c, get_from_cache cache choice ct = some c → c ∈ cache ct := by
  refine ⟨by simp [get_ai_content], fun c h => get_from_cache_mem h⟩

theorem no_credentials_no_network_witness :
    [("fact", JsonVal.str "f")] ∈
      (fun _ => [[("fact", JsonVal.str "f")]] : CacheStore) "fact" :=
  (no_credentials_no_network false ⟨fun _ => .exn, none, none, none⟩
      (fun _ => [[("fact", JsonVal.str "f")]]) 0 "fact").2
    [("fact", JsonVal.str "f")] (by decide)

/-- C10: with neither the Gemini key nor the Groq key configured, the
credential gate of `get_ai_content` routes the request straight to the cache
tier with no network call, even when the OpenRouter or HuggingFace key is
configured; yet `_make_api_request` itself, were it reached, would call the
OpenRouter tier — so the last two backup tiers are unreachable precisely
because the gate inspects only the first two credentials. -/
theorem credential_gate_reads_only_first_two (gi orK hfK : Bool) (o : Oracle)
    (cache : CacheStore) (choice : Nat) (ct : String) :
    get_ai_content ⟨false, false, gi, orK, hfK⟩ o cache choice ct =
      (get_from_cache cache choice ct, cache, []) ∧
    Event.openrouterCall ∈ (makeApiRequest ⟨false, false, gi, true, true⟩ o).2 := by
  constructor
  · simp [get_ai_content]
  · unfold makeApiRequest
    cases o.openrouter <;> cases o.hf <;> simp

/-- C4: for each of the four kinds, cache add is idempotent on the
kind-specific natural key (question text, fact text, formula title, word):
adding `c'` whose natural-key field equals that of an already-added `c`
leaves the whole store unchanged, and in particular adding the same
natural key twice into an empty store yields one entry for the kind,
not two. -/
theorem add_to_cache_idempotent (ct : String) (c c' : Content) (cache : CacheStore)
    (hct : knownType ct = true)
    (hkey : dget c' (naturalKey ct) = dget c (naturalKey ct)) :
    add_to_cache ct c' (add_to_cache ct c cache) = add_to_cache ct c cache ∧
    ((add_to_cache ct c' (add_to_cache ct c emptyCache)) ct).length = 1 := by
  have key : ∀ cache2 : CacheStore,
      isDuplicate ct ((add_to_cache ct c cache2) ct) c' = true := by
    intro cache2
    rw [isDuplicate_natural_key hct, List.any_eq_true]
    by_cases hdup : isDuplicate ct (cache2 ct) c = true
    · rw [add_to_cache_of_dup hdup]
      rw [isDuplicate_natural_key hct, List.any_eq_true] at hdup
      obtain ⟨item, hmem, hbeq⟩ := hdup
      exact ⟨item, hmem, by rw [hkey]; exact hbeq⟩
    · have hdup' : isDuplicate ct (cache2 ct) c = false := by
        simpa using hdup
      exact ⟨c, mem_add_to_cache_self hdup', by rw [hkey]; simp⟩
  refine ⟨add_to_cache_of_dup (key cache), ?_⟩
  rw [add_to_cache_of_dup (key emptyCache)]
  have hd : isDuplicate ct [] c = false := rfl
  unfold add_to_cache
  simp [emptyCache, hd]

theorem add_to_cache_idempotent_witness :
    knownType "question" = true ∧
    add_to_cache "question" [("question", JsonVal.str "q")]
        (add_to_cache "question" [("question", JsonVal.str "q")] emptyCache) =
      add_to_cache "question" [("question", JsonVal.str "q")] emptyCache ∧
    ((add_to_cache "question" [("question", JsonVal.str "q")]
        (add_to_cache "question" [("question", JsonVal.str "q")] emptyCache))
        "question").length = 1 :=
  ⟨by decide,
    add_to_cache_idempotent "question" [("question", JsonVal.str "q")]
      [("question", JsonVal.str "q")] emptyCache (by decide) rfl⟩

/-- C5: starting from a store within the 100-entry cap, any sequence of adds
keeps every kind's list within 100 entries; and when a kind already holds
exactly 100 entries, adding a distinct (non-duplicate) entry evicts the
oldest entry of that kind: the resulting list is the last 100 entries in
insertion order, the previous list without its head, with the new entry
appended. -/
theorem cache_capped_and_evicts_oldest (cache : CacheStore)
    (hb : ∀ k, (cache k).length ≤ 100) :
    (∀ ops k, ((applyAdds ops cache) k).length ≤ 100) ∧
    (∀ ct c, (cache ct).length = 100 → isDuplicate ct (cache ct) c = false →
      (add_to_cache ct c cache) ct = (cache ct).drop 1 ++ [c]) := by
  constructor
  · intro ops k
    exact applyAdds_bound ops cache hb k
  · intro ct c hlen hdup
    unfold add_to_cache
    simp only [hdup, Bool.false_eq_true, if_false]
    rw [if_pos trivial]
    have h101 : (cache ct ++ [c]).length = 101 := by
      simp [hlen]
    rw [if_pos (by omega)]
    rw [h101]
    rw [List.drop_append_of_le_length (by omega)]

/-- Whether a Gemini attempt outcome lets the retry loop move on to the
next attempt: a 200 whose extraction or parse raised, a non-200 non-429
HTTP status, or a connection exception. -/
def continuesLoop : GeminiResp → Bool
  | .exn => true
  | .resp status parsed =>
    if status == 200 then parsed.isNone else status != 429

theorem geminiTry_continues_then_429 (o : Nat → GeminiResp) (pk : Option Content) :
    ∀ (l1 : List Nat) (k : Nat) (l2 : List Nat),
      (∀ j ∈ l1, continuesLoop (o j) = true) → o k = .resp 429 pk →
      (geminiTry o (l1 ++ k :: l2)).1 = none ∧
      geminiAttemptsIn (geminiTry o (l1 ++ k :: l2)).2 = l1.length + 1 ∧
      (geminiTry o (l1 ++ k :: l2)).2.getLast? = some (.geminiAttempt k) := by
  intro l1
  induction l1 with
  | nil =>
    intro k l2 _ h429
    simp [geminiTry, h429, geminiAttemptsIn, isGeminiAttemptEvt]
  | cons a l1 ih =>
    intro k l2 hcont h429
    have ha := hcont a (by simp)
    have hrec := ih k l2 (fun j hj => hcont j (by simp [hj])) h429
    obtain ⟨hr1, hr2, hr3⟩ := hrec
    have hne : (geminiTry o (l1 ++ (k :: l2))).2 ≠ [] := by
      intro hnil
      rw [hnil] at hr3
      simp at hr3
    have hlast : ∀ d : List Event,
        (Event.geminiAttempt a :: (d ++ (geminiTry o (l1 ++ (k :: l2))).2)).getLast? =
          some (Event.geminiAttempt k) := by
      intro d
      rw [show Event.geminiAttempt a :: (d ++ (geminiTry o (l1 ++ (k :: l2))).2) =
            (Event.geminiAttempt a :: d) ++ (geminiTry o (l1 ++ (k :: l2))).2 from rfl,
        List.getLast?_append_of_ne_nil _ hne]
      exact hr3
    cases h : o a with
    | exn =>
      have hstep : geminiTry o ((a :: l1) ++ (k :: l2)) =
          ((geminiTry o (l1 ++ (k :: l2))).1,
           Event.geminiAttempt a :: (geminiTry o (l1 ++ (k :: l2))).2) := by
        simp only [List.cons_append, geminiTry, h, List.append_eq]
      rw [hstep]
      refine ⟨hr1, ?_, hlast []⟩
      unfold geminiAttemptsIn at hr2 ⊢
      simp only [List.filter_cons, isGeminiAttemptEvt, if_true, List.length_cons,
        List.length_append]
      omega
    | resp status parsed =>
      rw [h] at ha
      by_cases h200 : status == 200
      · have hpn : parsed = none := by
          simp only [continuesLoop, h200, if_true] at ha
          exact Option.isNone_iff_eq_none.mp ha
        subst hpn
        have hstep : geminiTry o ((a :: l1) ++ (k :: l2)) =
            ((geminiTry o (l1 ++ (k :: l2))).1,
             Event.geminiAttempt a :: (geminiTry o (l1 ++ (k :: l2))).2) := by
          simp only [List.cons_append, geminiTry, h, h200, if_true, List.append_eq]
        rw [hstep]
        refine ⟨hr1, ?_, hlast []⟩
        unfold geminiAttemptsIn at hr2 ⊢
        simp only [List.filter_cons, isGeminiAttemptEvt, if_true, List.length_cons,
          List.length_append]
        omega
      · have h200f : (status == 200) = false := by
          simpa using h200
        have h429f : (status == 429) = false := by
          have h429a : (status != 429) = true := by
            simpa [continuesLoop, h200f] using ha
          simpa using h429a
        have hstep : geminiTry o ((a :: l1) ++ (k :: l2)) =
            ((geminiTry o (l1 ++ (k :: l2))).1,
             Event.geminiAttempt a ::
               ((if a < MAX_RETRIES - 1 then [Event.sleep 2] else []) ++
                 (geminiTry o (l1 ++ (k :: l2))).2)) := by
          simp only [List.cons_append, geminiTry, h, h200f, h429f,
            Bool.false_eq_true, if_false, List.append_eq]
        rw [hstep]
        refine ⟨hr1, ?_, hlast _⟩
        unfold geminiAttemptsIn at hr2 ⊢
        by_cases hl : a < MAX_RETRIES - 1 <;>
          simp only [hl, if_true, if_false, List.filter_cons, List.filter_append,
            List.filter_nil, isGeminiAttemptEvt, List.length_cons,
            List.length_append, List.nil_append, Bool.false_eq_true,
            List.length_nil] <;>
          omega

/-- C3: when the primary provider returns HTTP 429 on attempt `k` (each
earlier attempt having failed retryably), the retry loop performs zero
further attempts against the primary: exactly `k + 1` attempts happen, the
trace ends at attempt `k` with no backoff sleep after it, and
`_make_api_request` proceeds directly to the next configured provider — its
result is the Groq outcome and its trace is the Gemini trace followed
immediately by the Groq call. -/
theorem rate_limited_immediate_failover (o : Oracle) (k : Nat) (pk : Option Content)
    (hk : k < MAX_RETRIES)
    (h429 : o.gemini k = .resp 429 pk)
    (hprev : ∀ j, j < k → continuesLoop (o.gemini j) = true) :
    (geminiRun o.gemini).1 = none ∧
    geminiAttemptsIn (geminiRun o.gemini).2 = k + 1 ∧
    (geminiRun o.gemini).2.getLast? = some (Event.geminiAttempt k) ∧
    makeApiRequest ⟨true, true, true, false, false⟩ o =
      (o.groq, (geminiRun o.gemini).2 ++ [Event.groqCall]) := by
  have hdecomp : List.range MAX_RETRIES =
      List.range k ++ k :: (List.range MAX_RETRIES).drop (k + 1) := by
    unfold MAX_RETRIES at hk ⊢
    interval_cases k <;> rfl
  have hmain := geminiTry_continues_then_429 o.gemini pk (List.range k) k
      ((List.range MAX_RETRIES).drop (k + 1))
      (fun j hj => hprev j (List.mem_range.mp hj)) h429
  rw [← hdecomp] at hmain
  obtain ⟨h1, h2, h3⟩ := hmain
  rw [List.length_range] at h2
  have hg1 : (geminiRun o.gemini).1 = none := h1
  refine ⟨hg1, h2, h3, ?_⟩
  have hpair : geminiRun o.gemini = (none, (geminiRun o.gemini).2) :=
    Prod.ext hg1 rfl
  unfold makeApiRequest
  rw [hpair]
  cases hq : o.groq <;> simp [hq]

/-- The primary provider rate-limited at once; Groq configured and healthy. -/
def oracle429 : Oracle :=
  ⟨fun _ => .resp 429 none, some [("fact", JsonVal.str "f")], none, none⟩

theorem rate_limited_immediate_failover_witness :
    (geminiRun oracle429.gemini).1 = none ∧
    geminiAttemptsIn (geminiRun oracle429.gemini).2 = 0 + 1 ∧
    (geminiRun oracle429.gemini).2.getLast? = some (Event.geminiAttempt 0) ∧
    makeApiRequest ⟨true, true, true, false, false⟩ oracle429 =
      (oracle429.groq, (geminiRun oracle429.gemini).2 ++ [Event.groqCall]) :=
  rate_limited_immediate_failover oracle429 0 none (by decide) rfl
    (fun j hj => absurd hj (Nat.not_lt_zero j))

/-- An environment in which only the Gemini key is configured. -/
def envGeminiOnly : Env := ⟨true, false, false, false, false⟩

/-- A parsed provider result that misses every required field of the
`fact` kind. -/
def badFact : Content := [("foo", JsonVal.str "bar")]

/-- C1 counterexample: `get_ai_content` performs no required-field
validation.  With the provider returning the parsed object `{"foo": "bar"}`
— which fails the spec's required-field set for the `fact` kind — the
result is cached anyway and returned to the caller: after the call the
`fact` list of the store holds exactly that invalid object. -/
theorem invalid_result_cached :
    specValidForKind "fact" badFact = false ∧
    (get_ai_content envGeminiOnly
        ⟨fun _ => .resp 200 (some badFact), none, none, none⟩
        emptyCache 0 "fact").2.1 "fact" = [badFact] ∧
    (get_ai_content envGeminiOnly
        ⟨fun _ => .resp 200 (some badFact), none, none, none⟩
        emptyCache 0 "fact").1 = some badFact :=
  ⟨by decide, by decide, by decide⟩

/-- C1 amended: no required-field validation exists in the pipeline: for
every environment passing the credential gate, every known kind, and every
run whose provider pipeline produces a parsed non-empty object `c`,
`get_ai_content` returns `c` and stores it via `add_to_cache`, whether or
not `c` satisfies the kind's required-field set. -/
theorem parsed_result_cached_without_validation (env : Env) (o : Oracle)
    (cache : CacheStore) (choice : Nat) (ct : String) (c : Content)
    (hcred : (env.geminiKey || env.groqKey) = true)
    (hct : knownType ct = true)
    (hres : (makeApiRequest env o).1 = some c)
    (hne : c ≠ []) :
    get_ai_content env o cache choice ct =
      (some c, add_to_cache ct c cache, (makeApiRequest env o).2) := by
  have hgate : (!env.geminiKey && !env.groqKey) = false := by
    cases hg : env.geminiKey <;> cases hq : env.groqKey <;> simp_all
  have hnotempty : c.isEmpty = false := by
    cases c with
    | nil => exact absurd rfl hne
    | cons a l => rfl
  simp only [get_ai_content, hgate, Bool.false_eq_true, if_false, hct,
    Bool.not_true, hres, hnotempty, Bool.not_false, if_true]

theorem parsed_result_cached_without_validation_witness :
    get_ai_content envGeminiOnly
        ⟨fun _ => .resp 200 (some [("fact", JsonVal.str "ok")]), none, none, none⟩
        emptyCache 0 "fact" =
      (some [("fact", JsonVal.str "ok")],
       add_to_cache "fact" [("fact", JsonVal.str "ok")] emptyCache,
       (makeApiRequest envGeminiOnly
          ⟨fun _ => .resp 200 (some [("fact", JsonVal.str "ok")]), none, none,
            none⟩).2) :=
  parsed_result_cached_without_validation envGeminiOnly _ emptyCache 0 "fact" _
    (by decide) (by decide) (by decide) (by decide)

/-- Every provider tier failing: Gemini answers HTTP 500 on every attempt
and no backup succeeds. -/
def oracleAllFail : Oracle := ⟨fun _ => .resp 500 none, none, none, none⟩

/-- The store produced by caching the invalid `fact` object. -/
def cacheWithBadFact : CacheStore :=
  (get_ai_content envGeminiOnly
      ⟨fun _ => .resp 200 (some badFact), none, none, none⟩
      emptyCache 0 "fact").2.1

/-- C7 counterexample: the fallback can hand the caller an invalid,
partially-filled structure.  A first call caches the provider's invalid
`{"foo": "bar"}` object for kind `fact`; a second call in which every
provider fails then serves exactly that entry from the cache. -/
theorem fallback_returns_invalid_entry :
    specValidForKind "fact" badFact = false ∧
    (get_ai_content envGeminiOnly oracleAllFail cacheWithBadFact 0 "fact").1 =
      some badFact :=
  ⟨by decide, by decide⟩

/-- C7 amended: when live generation fails entirely, `get_ai_content` falls
back to the cache for the requested kind: provided every cached entry of
that kind is a non-empty object (true of every entry the pipeline itself
stores), it returns one of the kind's cached entries whenever there are
any — never the unavailability signal — and returns the unavailability
signal (`None`) exactly when the kind's cache is empty.  The entry is
returned as stored, without required-field validation. -/
theorem generation_failure_serves_cache (env : Env) (o : Oracle)
    (cache : CacheStore) (choice : Nat) (ct : String)
    (hcred : (env.geminiKey || env.groqKey) = true)
    (hct : knownType ct = true)
    (hfail : (makeApiRequest env o).1 = none)
    (hne : ∀ e ∈ cache ct, e ≠ []) :
    (cache ct ≠ [] →
      ∃ c ∈ cache ct, (get_ai_content env o cache choice ct).1 = some c) ∧
    (cache ct = [] → (get_ai_content env o cache choice ct).1 = none) := by
  have hgate : (!env.geminiKey && !env.groqKey) = false := by
    cases hg : env.geminiKey <;> cases hq : env.groqKey <;> simp_all
  have hred : (get_ai_content env o cache choice ct).1 =
      cacheFallback cache choice ct := by
    simp only [get_ai_content, hgate, Bool.false_eq_true, if_false, hct,
      Bool.not_true, hfail]
  constructor
  · intro hnonempty
    have hlen : 0 < (cache ct).length := List.length_pos.mpr hnonempty
    have hidx : choice % (cache ct).length < (cache ct).length :=
      Nat.mod_lt _ hlen
    have hmem : (cache ct).get ⟨choice % (cache ct).length, hidx⟩ ∈ cache ct :=
      List.get_mem _ _ hidx
    have hget : get_from_cache cache choice ct =
        some ((cache ct).get ⟨choice % (cache ct).length, hidx⟩) := by
      unfold get_from_cache
      rw [List.getElem?_eq_getElem hidx]
      rfl
    have hname : (cache ct).get ⟨choice % (cache ct).length, hidx⟩ ≠ [] :=
      hne _ hmem
    have hnotempty : ((cache ct).get ⟨choice % (cache ct).length, hidx⟩).isEmpty
        = false := by
      cases hcc : (cache ct).get ⟨choice % (cache ct).length, hidx⟩ with
      | nil => exact absurd hcc hname
      | cons a l => rfl
    refine ⟨(cache ct).get ⟨choice % (cache ct).length, hidx⟩, hmem, ?_⟩
    rw [hred]
    unfold cacheFallback
    rw [hget]
    have hname2 := hname
    simp only [List.get_eq_getElem] at hname2
    simp [hnotempty, hname2]
  · intro hempty
    rw [hred]
    unfold cacheFallback get_from_cache
    simp [hempty]

/-- A store holding one well-formed fact entry. -/
def cacheOneFact : CacheStore :=
  fun k => if k = "fact" then [[("fact", JsonVal.str "f")]] else []

theorem generation_failure_serves_cache_witness :
    ∃ c ∈ cacheOneFact "fact",
      (get_ai_content envGeminiOnly oracleAllFail cacheOneFact 0 "fact").1 =
        some c :=
  (generation_failure_serves_cache envGeminiOnly oracleAllFail cacheOneFact 0
      "fact" (by decide) (by decide) (by decide) (by decide)).1 (by decide)

theorem findIdx?_hit_after_prefix {α : Type} (p : α → Bool) :
    ∀ (l1 l2 : List α) (i : Nat), (∀ x ∈ l1, p x = false) →
      (∃ ch, l2.head? = some ch ∧ p ch = true) →
      List.findIdx? p (l1 ++ l2) i = some (i + l1.length) := by
  intro l1
  induction l1 with
  | nil =>
    intro l2 i _ hhit
    obtain ⟨ch, hc, hpc⟩ := hhit
    cases l2 with
    | nil => simp at hc
    | cons a tl =>
      simp only [List.head?_cons, Option.some.injEq] at hc
      subst hc
      simp [List.findIdx?_cons, hpc]
  | cons x l1 ih =>
    intro l2 i hnone hhit
    have hx : p x = false := hnone x (by simp)
    simp only [List.cons_append, List.findIdx?_cons, hx, Bool.false_eq_true,
      if_false]
    rw [ih l2 (i + 1) (fun y hy => hnone y (by simp [hy])) hhit]
    simp only [List.length_cons, Option.some.injEq]
    omega

/-- C9 counterexample: only the HuggingFace branch slices from the first
`{` to the last `}`; the `repair_json` step that prepares every other
provider's raw text for parsing leaves surrounding prose in place, so the
text handed to the parser on those paths is not the embedded object. -/
theorem repair_does_not_slice_prose :
    hfExtract "Sure! Here you go: \x7b\"fact\": \"x\"\x7d Enjoy." = "\x7b\"fact\": \"x\"\x7d" ∧
    repair_json "Sure! Here you go: \x7b\"fact\": \"x\"\x7d Enjoy." =
      "Sure! Here you go: \x7b\"fact\": \"x\"\x7d Enjoy." ∧
    "Sure! Here you go: \x7b\"fact\": \"x\"\x7d Enjoy." ≠ "\x7b\"fact\": \"x\"\x7d" :=
  ⟨by decide, by decide, by decide⟩

/-- C9 amended: only the HuggingFace tier locates the first `{` and the
last `}` and slices between them before parsing; the other providers parse
`repair_json`'s output, which does not remove surrounding prose (see the
counterexample).  For every raw text `pre ++ mid ++ post` in which prose
`pre` contains no `{`, prose `post` contains no `}`, and `mid` is the
brace-delimited object text, the HuggingFace extraction returns exactly
`mid`. -/
theorem hf_extracts_embedded_object (pre mid post : List Char)
    (hpre : Char.ofNat 123 ∉ pre) (hpost : Char.ofNat 125 ∉ post)
    (hhead : mid.head? = some (Char.ofNat 123))
    (hlast : mid.getLast? = some (Char.ofNat 125)) :
    hfExtractL (pre ++ mid ++ post) = mid := by
  have hmidne : mid ≠ [] := by
    intro h
    rw [h] at hhead
    simp at hhead
  have hpre2 : ∀ x ∈ pre, (x == Char.ofNat 123) = false := by
    intro x hx
    simp only [beq_eq_false_iff_ne, ne_eq]
    intro he
    exact hpre (he ▸ hx)
  have hpost2 : ∀ x ∈ post.reverse, (x == Char.ofNat 125) = false := by
    intro x hx
    simp only [List.mem_reverse] at hx
    simp only [beq_eq_false_iff_ne, ne_eq]
    intro he
    exact hpost (he ▸ hx)
  have hrevne : mid.reverse ≠ [] := by simpa using hmidne
  have e1 : List.findIdx? (fun x => x == Char.ofNat 123) (pre ++ mid ++ post) 0 =
      some pre.length := by
    rw [List.append_assoc]
    have := findIdx?_hit_after_prefix (fun x => x == Char.ofNat 123) pre
        (mid ++ post) 0 hpre2
        ⟨Char.ofNat 123, by rw [List.head?_append_of_ne_nil _ hmidne]; exact hhead,
          by simp⟩
    simpa using this
  have e2 : List.findIdx? (fun x => x == Char.ofNat 125)
      ((pre ++ mid ++ post).reverse) 0 = some post.length := by
    have hr : (pre ++ mid ++ post).reverse =
        post.reverse ++ (mid.reverse ++ pre.reverse) := by
      simp [List.reverse_append]
    rw [hr]
    have := findIdx?_hit_after_prefix (fun x => x == Char.ofNat 125) post.reverse
        (mid.reverse ++ pre.reverse) 0 hpost2
        ⟨Char.ofNat 125,
          by rw [List.head?_append_of_ne_nil _ hrevne, List.head?_reverse]; exact hlast,
          by simp⟩
    simpa using this
  have hlen : (pre ++ mid ++ post).length =
      pre.length + mid.length + post.length := by
    simp only [List.length_append]
  unfold hfExtractL pyFind pyRFind
  rw [e1, e2]
  simp only []
  rw [if_pos ?hc]
  case hc =>
    constructor
    · intro hemp
      omega
    · intro hemp
      omega
  have ht1 : ((pre.length : Int)).toNat = pre.length := rfl
  have ht2 : (((pre ++ mid ++ post).length : Int) - 1 - (post.length : Int) + 1).toNat
      = pre.length + mid.length := by
    rw [hlen]
    omega
  rw [ht1, ht2]
  have hd : (pre ++ mid ++ post).drop pre.length = mid ++ post := by
    rw [List.append_assoc]
    exact List.drop_left pre (mid ++ post)
  rw [hd]
  have harg : pre.length + mid.length - pre.length = mid.length := by omega
  rw [harg]
  exact List.take_left mid post

theorem hf_extracts_embedded_object_witness :
    hfExtractL ("AI says: ".toList ++ "\x7b\"a\": 1\x7d".toList ++ " bye".toList) =
      "\x7b\"a\": 1\x7d".toList :=
  hf_extracts_embedded_object "AI says: ".toList "\x7b\"a\": 1\x7d".toList " bye".toList
    (by decide) (by decide) (by decide) (by decide)

/-- A concrete store holding exactly 100 fact entries. -/
def cacheHundred : CacheStore :=
  fun k => if k = "fact" then List.replicate 100 [("fact", JsonVal.str "x")] else []

theorem cache_capped_and_evicts_oldest_witness :
    (add_to_cache "fact" [("fact", JsonVal.str "y")] cacheHundred) "fact" =
      (cacheHundred "fact").drop 1 ++ [[("fact", JsonVal.str "y")]] :=
  (cache_capped_and_evicts_oldest cacheHundred
      (by
        intro k
        by_cases hk : k = "fact" <;> simp [cacheHundred, hk])).2
    "fact" [("fact", JsonVal.str "y")] (by simp [cacheHundred]) (by decide)

end StudyPulse
